import Mathlib

/-!
Verification development for the topology/connectivity manager (package
`kademlia`) of this repository.  The Go source of the `Kad` type —
`recalcDepth`, `binSaturated`, `AddPeer`, `Disconnected`, `Remove`, the
`manage` reconciliation loop, `ClosestPeer`, `NeighborhoodDepth` — is
embedded shallowly below.  The `pslice` container and `swarm.Proximity`
are consumed by this code but their sources are not part of the tree, so
they are modelled from the specification (sections 4.1 and 4.2), with the
bin-traversal direction of `EachBin` fixed to descending order: the
specification's own golden scenarios (section 8, declared binding in
sections 4.3 and 9) and the repository's `TestNeighborhoodDepth` force
that direction.
-/

/-- Overlay addresses are opaque fixed-length byte sequences; we model them
as bit lists, which is all the proximity metric inspects. -/
abbrev Address := List Bool

/-- Configuration constant `maxBins = 16` from the kademlia package. -/
def maxBins : Nat := 16

/-- Configuration constant `nnLowWatermark = 2` from the kademlia package. -/
def nnLowWatermark : Nat := 2

/-- Number of leading bits at which two addresses agree. -/
def commonBits : List Bool → List Bool → Nat
  | x :: xs, y :: ys => if x = y then commonBits xs ys + 1 else 0
  | _, _ => 0

/-- Modelled from the spec: `swarm.Proximity` is not in the tree; section 4.1
defines it as the count of leading shared bits, capped to `maxBins - 1`. -/
def Proximity (a b : Address) : Nat := min (maxBins - 1) (commonBits a b)

/-- Modelled from the spec: the `pslice` binned peer set (section 4.2) is a
mapping from bin to the insertion-ordered sequence of addresses in it. -/
structure PSlice where
  bins : List (List Address)
deriving DecidableEq

/-- Fresh binned peer set with `n` empty bins (`pslice.New`). -/
def PSlice.new (n : Nat) : PSlice := ⟨List.replicate n []⟩

/-- Modelled from the spec: `Add(addr, bin)` appends `addr` to `bin`
(insertion order within a bin). -/
def PSlice.Add (s : PSlice) (addr : Address) (bin : Nat) : PSlice :=
  ⟨s.bins.set bin (s.bins.getD bin [] ++ [addr])⟩

/-- Modelled from the spec: `Remove(addr, bin)` removes `addr` from `bin`
if present, and is a no-op otherwise. -/
def PSlice.Remove (s : PSlice) (addr : Address) (bin : Nat) : PSlice :=
  ⟨s.bins.set bin ((s.bins.getD bin []).erase addr)⟩

/-- Modelled from the spec: `Exists(addr)` is true if `addr` is present in
any bin. -/
def PSlice.Exists (s : PSlice) (addr : Address) : Bool :=
  s.bins.any (fun l => l.contains addr)

/-- Modelled from the spec: `Length()` is the total peer count across bins. -/
def PSlice.Length (s : PSlice) : Nat := (s.bins.map List.length).sum

/-- Number of peers stored in bin `i`. -/
def PSlice.binSize (s : PSlice) (i : Nat) : Nat := (s.bins.getD i []).length

/-- Bins paired with their indices, shallowest first, starting at index `i`. -/
def binEntries : List (List Address) → Nat → List (Nat × List Address)
  | [], _ => []
  | l :: rest, i => (i, l) :: binEntries rest (i + 1)

/-- Flatten indexed bins into the `(addr, po)` visit sequence of a traversal. -/
def flattenBins : List (Nat × List Address) → List (Address × Nat)
  | [] => []
  | (i, l) :: rest => l.map (fun a => (a, i)) ++ flattenBins rest

/-- Modelled from the spec: the `(addr, po)` visit order of `EachBin`.  The
direction is descending (deepest bin first): section 9 notes the prose and
the reference comments disagree and makes the golden scenarios of section 8
binding; those scenarios, and `TestNeighborhoodDepth` in the tree, are only
reproduced by a descending `EachBin`. -/
def PSlice.EachBinList (s : PSlice) : List (Address × Nat) :=
  flattenBins (binEntries s.bins 0).reverse

/-- Modelled from the spec: the `(addr, po)` visit order of `EachBinRev`,
ascending (shallowest bin first), dual to `EachBinList`. -/
def PSlice.EachBinRevList (s : PSlice) : List (Address × Nat) :=
  flattenBins (binEntries s.bins 0)

/-- Indices of the non-empty bins, shallowest first. -/
def PSlice.occupied (s : PSlice) : List Nat :=
  ((binEntries s.bins 0).filter (fun p => !p.2.isEmpty)).map Prod.fst

/-- Deepest non-empty bin, if any. -/
def PSlice.deepestOccupied (s : PSlice) : Option Nat := s.occupied.getLast?

/-- Modelled from the spec: `ShallowestEmpty()` returns the lowest-numbered
bin, strictly shallower than the deepest occupied bin, that holds zero
peers; `none` stands for the `noneFound = true` result. -/
def PSlice.ShallowestEmpty (s : PSlice) : Option Nat :=
  match s.deepestOccupied with
  | none => none
  | some d => (List.range d).find? (fun i => s.binSize i == 0)

/-- Outcome of a Go function that either returns normally or panics. -/
inductive GoResult (α : Type) where
  | ok : α → GoResult α
  | panicked : String → GoResult α
deriving DecidableEq

/-- State of the `Kad` connectivity manager: base address, the two binned
peer sets, the depth scalar, and the coalesced wake-up slot (`manageC`). -/
structure Kad where
  base : Address
  connectedPeers : PSlice
  knownPeers : PSlice
  depth : Nat
  wake : Bool
deriving DecidableEq

/-- Initial manager state built by `kademlia.New`. -/
def Kad.new (base : Address) : Kad :=
  { base := base
    connectedPeers := PSlice.new maxBins
    knownPeers := PSlice.new maxBins
    depth := 0
    wake := false }

/-- Body of the `EachBin` callback in `recalcDepth`: walk the connected
peers, incrementing the running count, and record the proximity order at
which the count reaches `nnLowWatermark`, stopping there.  A traversal that
never reaches the watermark leaves the candidate at its zero value. -/
def candidateLoop : List (Address × Nat) → Nat → Nat
  | [], _ => 0
  | (_, po) :: rest, peers =>
    if nnLowWatermark ≤ peers + 1 then po else candidateLoop rest (peers + 1)

/-- Shallow embedding of `Kad.recalcDepth`, reading the connected peer set:
return 0 at or below the low watermark; otherwise take the candidate bin
from the `EachBin` scan and cap it by the shallowest empty bin when that
hole is at or shallower than the candidate. -/
def recalcDepth (connectedPeers : PSlice) : Nat :=
  if connectedPeers.Length ≤ nnLowWatermark then 0
  else
    let candidate := candidateLoop connectedPeers.EachBinList 0
    match connectedPeers.ShallowestEmpty with
    | none => candidate
    | some shallowestEmpty =>
      if candidate < shallowestEmpty then candidate else shallowestEmpty

/-- Shallow embedding of `Kad.binSaturated`.  The Go body returns `false`
for `po >= depth`, then returns `false` unconditionally; the peer-count
check below that return (with `size` hardcoded to 0 and `val = 2`) is
unreachable dead code, so the function is constantly `false`. -/
def binSaturated (po depth : Nat) : Bool :=
  if depth ≤ po then false
  else false

/-- Shallow embedding of `Kad.AddPeer`: panic on an address already known
or connected, otherwise insert into the known set at its proximity bin and
post a coalesced wake-up. -/
def Kad.AddPeer (k : Kad) (addr : Address) : GoResult Kad :=
  if k.connectedPeers.Exists addr || k.knownPeers.Exists addr then
    GoResult.panicked "peer already connected"
  else
    let po := Proximity k.base addr
    GoResult.ok { k with knownPeers := k.knownPeers.Add addr po, wake := true }

/-- Shallow embedding of `Kad.Disconnected`: drop the address from the
connected set at its proximity bin, recompute depth, post a wake-up. -/
def Kad.Disconnected (k : Kad) (addr : Address) : Kad :=
  let po := Proximity k.base addr
  let conn := k.connectedPeers.Remove addr po
  { k with connectedPeers := conn, depth := recalcDepth conn, wake := true }

/-- Shallow embedding of `Kad.Remove`, identical in effect to
`Kad.Disconnected` in the source. -/
def Kad.Remove (k : Kad) (addr : Address) : Kad :=
  let po := Proximity k.base addr
  let conn := k.connectedPeers.Remove addr po
  { k with connectedPeers := conn, depth := recalcDepth conn, wake := true }

/-- Locked section of the `manage` loop's dial-success branch: record the
peer in the connected set, recompute depth, post a wake-up. -/
def Kad.connectPeer (k : Kad) (peer : Address) (po : Nat) : Kad :=
  let conn := k.connectedPeers.Add peer po
  { k with connectedPeers := conn, depth := recalcDepth conn, wake := true }

/-- Outcome of running the `manage` callback over one bin: either the
traversal continues with the next bin, or it has ended (normally after a
dial success, or by a panic). -/
inductive BinStep where
  | cont : Kad → BinStep
  | stop : GoResult Kad → BinStep
deriving DecidableEq

/-- Shallow embedding of the `EachBinRev` callback of `Kad.manage` run over
the addresses of one bin `po`.  A connected peer is skipped; a saturated
bin makes the callback skip the rest of the bin (skipRestOfBin = true); a
failed address resolution panics (the Go body calls `panic` before its
dead continue-to-next-peer return); a failed dial continues with the next
candidate; a successful dial records the peer, recomputes depth, posts a
wake-up and stops the whole traversal (the callback returns stop = true). -/
def manageBinLoop (μ : Type) (resolve : Address → Option μ)
    (connect : μ → Option Address) (po : Nat) :
    Kad → List Address → BinStep
  | k, [] => BinStep.cont k
  | k, peer :: addrs =>
    if k.connectedPeers.Exists peer then
      manageBinLoop μ resolve connect po k addrs
    else if binSaturated po k.depth then
      BinStep.cont k
    else
      match resolve peer with
      | none => BinStep.stop (GoResult.panicked "err")
      | some ma =>
        match connect ma with
        | none => manageBinLoop μ resolve connect po k addrs
        | some _ => BinStep.stop (GoResult.ok (k.connectPeer peer po))

/-- The `EachBinRev` traversal of `Kad.manage` over the indexed bins of
the known set, ascending: run the callback over each bin in turn until a
callback run ends the traversal. -/
def manageBins (μ : Type) (resolve : Address → Option μ)
    (connect : μ → Option Address) :
    Kad → List (Nat × List Address) → GoResult Kad
  | k, [] => GoResult.ok k
  | k, (po, addrs) :: rest =>
    match manageBinLoop μ resolve connect po k addrs with
    | BinStep.cont k' => manageBins μ resolve connect k' rest
    | BinStep.stop r => r

/-- One reconciliation pass of `Kad.manage`: scan the known set with
`EachBinRev` (ascending bin order). -/
def Kad.managePass (μ : Type) (resolve : Address → Option μ)
    (connect : μ → Option Address) (k : Kad) : GoResult Kad :=
  manageBins μ resolve connect k (binEntries k.knownPeers.bins 0)

/-- Shallow embedding of `Kad.ClosestPeer`: the Go body is
`panic("not implemented")` for every input. -/
def Kad.ClosestPeer (k : Kad) (addr : Address) : GoResult Address :=
  GoResult.panicked "not implemented"

/-- Shallow embedding of `Kad.NeighborhoodDepth`: the stored depth scalar. -/
def Kad.NeighborhoodDepth (k : Kad) : Nat := k.depth

/-- States of the connectivity manager reachable from `Kad.New` through its
mutating operations: successful `AddPeer`, `Disconnected`, `Remove`, and
the dial-success update of the reconciliation loop. -/
inductive Kad.Reachable : Kad → Prop where
  | init (base : Address) : Kad.Reachable (Kad.new base)
  | addPeer (k : Kad) (addr : Address) (k' : Kad) :
      Kad.Reachable k → k.AddPeer addr = GoResult.ok k' → Kad.Reachable k'
  | disconnected (k : Kad) (addr : Address) :
      Kad.Reachable k → Kad.Reachable (k.Disconnected addr)
  | remove (k : Kad) (addr : Address) :
      Kad.Reachable k → Kad.Reachable (k.Remove addr)
  | dial (k : Kad) (peer : Address) (po : Nat) :
      Kad.Reachable k → k.connectedPeers.Exists peer = false →
      Kad.Reachable (k.connectPeer peer po)

/-- Bin indices paired with bin sizes, shallowest first, starting at `i`. -/
def enumSizes : List (List Address) → Nat → List (Nat × Nat)
  | [], _ => []
  | l :: rest, i => (i, l.length) :: enumSizes rest (i + 1)

/-- Bin-granularity form of the depth-candidate scan of the specification:
walk `(bin, size)` entries accumulating a running peer count and record the
first bin at which the count reaches the watermark. -/
def specCandLoop : List (Nat × Nat) → Nat → Nat
  | [], _ => 0
  | (i, n) :: rest, acc =>
    if nnLowWatermark ≤ acc + n then i else specCandLoop rest (acc + n)

/-- Depth formula stated by the specification with the candidate scan taken
in decreasing bin order (deepest first). -/
def specDepthDesc (s : PSlice) : Nat :=
  let candidate := specCandLoop (enumSizes s.bins 0).reverse 0
  match s.ShallowestEmpty with
  | none => candidate
  | some shallowestEmpty =>
    if candidate < shallowestEmpty then candidate else shallowestEmpty

/-- Depth formula stated by the specification read literally with the
candidate scan in increasing bin order, for comparison with the source. -/
def specDepthAsc (s : PSlice) : Nat :=
  let candidate := specCandLoop (enumSizes s.bins 0) 0
  match s.ShallowestEmpty with
  | none => candidate
  | some shallowestEmpty =>
    if candidate < shallowestEmpty then candidate else shallowestEmpty

/-- Variant of `recalcDepth` whose `EachBin` traversal runs in ascending bin
order, as section 4.2 of the specification literally describes it; compared
against the source embedding `recalcDepth`. -/
def recalcDepthEachBinAsc (connectedPeers : PSlice) : Nat :=
  if connectedPeers.Length ≤ nnLowWatermark then 0
  else
    let candidate := candidateLoop connectedPeers.EachBinRevList 0
    match connectedPeers.ShallowestEmpty with
    | none => candidate
    | some shallowestEmpty =>
      if candidate < shallowestEmpty then candidate else shallowestEmpty

/-- Base address used by the concrete scenarios: sixteen one bits. -/
def base0 : Address := List.replicate 16 true

/-- Concrete peer at proximity order 0 from `base0`. -/
def pa0 : Address := [false]

/-- Concrete peer at proximity order 1 from `base0`. -/
def pa1 : Address := [true, false]

/-- Concrete peer at proximity order 2 from `base0`. -/
def pa2 : Address := [true, true, false]

/-- Concrete peer at proximity order 8 from `base0`. -/
def pa8 : Address := List.replicate 8 true ++ [false]

/-- Second concrete peer at proximity order 8 from `base0`. -/
def pb8 : Address := List.replicate 8 true ++ [false, true]

/-- Connected set of golden scenario 3: one peer at bin 0, one at bin 1,
two at bin 8. -/
def conn248 : PSlice :=
  ((((PSlice.new maxBins).Add pa0 0).Add pa1 1).Add pa8 8).Add pb8 8

/-- Connected set with peers at bins 0, 1, 2 and two at bin 8. -/
def conn5 : PSlice := conn248.Add pa2 2

example : recalcDepth conn248 = 2 := by decide
example : recalcDepth conn5 = 3 := by decide
example : recalcDepthEachBinAsc conn248 = 1 := by decide
example : specDepthAsc conn5 = 1 := by decide
example : specDepthDesc conn5 = 3 := by decide
example : recalcDepth (((PSlice.new maxBins).Add pa8 8).Add pb8 8) = 0 := by decide
example : recalcDepth (PSlice.new maxBins) = 0 := by decide
example : Proximity base0 pa0 = 0 ∧ Proximity base0 pa1 = 1 ∧ Proximity base0 pa8 = 8 := by decide

/-- Walking one bin's block of the flattened traversal: with the running
count still below the watermark, the scan either ends inside this bin
(returning its index) or leaves the bin with the count increased by the
bin's size. -/
theorem candLoop_block (l : List Address) (i : Nat) (tail : List (Address × Nat)) :
    ∀ acc : Nat, acc < nnLowWatermark →
    candidateLoop (l.map (fun a => (a, i)) ++ tail) acc =
      if nnLowWatermark ≤ acc + l.length then i
      else candidateLoop tail (acc + l.length) := by
  induction l with
  | nil =>
    intro acc h
    simp [candidateLoop, Nat.not_le.mpr h]
  | cons a l ih =>
    intro acc h
    simp only [List.map_cons, List.cons_append, candidateLoop, List.length_cons]
    by_cases h1 : nnLowWatermark ≤ acc + 1
    · rw [if_pos h1, if_pos (Nat.le_trans h1 (by omega))]
    · rw [if_neg h1]
      simp only [List.append_eq]
      rw [ih (acc + 1) (Nat.not_le.mp h1),
        show acc + 1 + l.length = acc + (l.length + 1) from by omega]

/-- The per-peer candidate scan over a flattened traversal agrees with the
bin-granularity scan over the corresponding `(bin, size)` entries. -/
theorem candLoop_flatten (L : List (Nat × List Address)) :
    ∀ acc : Nat, acc < nnLowWatermark →
    candidateLoop (flattenBins L) acc =
      specCandLoop (L.map (fun p => (p.1, p.2.length))) acc := by
  induction L with
  | nil => intro acc _; rfl
  | cons p rest ih =>
    intro acc h
    obtain ⟨i, l⟩ := p
    simp only [flattenBins, List.map_cons, specCandLoop]
    rw [candLoop_block l i _ acc h]
    by_cases h1 : nnLowWatermark ≤ acc + l.length
    · rw [if_pos h1, if_pos h1]
    · rw [if_neg h1, if_neg h1]
      exact ih _ (Nat.not_le.mp h1)

/-- Taking sizes of indexed bins yields the `(bin, size)` enumeration. -/
theorem binEntries_sizes : ∀ (bs : List (List Address)) (i : Nat),
    (binEntries bs i).map (fun p => (p.1, p.2.length)) = enumSizes bs i
  | [], _ => rfl
  | l :: rest, i => by
    simp [binEntries, enumSizes, binEntries_sizes rest (i + 1)]

/-- The `EachBin` candidate scan of `recalcDepth` equals the bin-granularity
scan over the reversed size enumeration. -/
theorem candidate_desc (s : PSlice) :
    candidateLoop s.EachBinList 0 = specCandLoop (enumSizes s.bins 0).reverse 0 := by
  unfold PSlice.EachBinList
  rw [candLoop_flatten _ 0 (by decide), List.map_reverse, binEntries_sizes]

/-- At or below the low watermark `recalcDepth` returns 0 (the guard). -/
theorem recalcDepth_of_le (s : PSlice) (h : s.Length ≤ nnLowWatermark) :
    recalcDepth s = 0 := by
  unfold recalcDepth
  rw [if_pos h]

/-- A successful `AddPeer` leaves the connected set and depth untouched. -/
theorem addPeer_ok_inv (k : Kad) (addr : Address) (k' : Kad)
    (h : k.AddPeer addr = GoResult.ok k') :
    k'.connectedPeers = k.connectedPeers ∧ k'.depth = k.depth := by
  unfold Kad.AddPeer at h
  split at h
  · exact absurd h (by simp)
  · injection h with h2
    rw [← h2]
    exact ⟨rfl, rfl⟩

/-- Size enumeration depends only on the bin sizes. -/
theorem enumSizes_congr : ∀ (bs cs : List (List Address)) (i : Nat),
    bs.map List.length = cs.map List.length → enumSizes bs i = enumSizes cs i
  | [], [], _, _ => rfl
  | [], _ :: _, _, h => by simp at h
  | _ :: _, [], _, h => by simp at h
  | b :: bs, c :: cs, i, h => by
    simp only [List.map_cons, List.cons.injEq] at h
    simp [enumSizes, h.1, enumSizes_congr bs cs (i + 1) h.2]

/-- Length of an indexed bin read through the size list. -/
theorem getD_length : ∀ (bs : List (List Address)) (i : Nat),
    (bs.getD i []).length = (bs.map List.length).getD i 0
  | [], i => by simp
  | _ :: _, 0 => rfl
  | _ :: bs, i + 1 => getD_length bs i

/-- Occupied-bin indices computed from sizes alone. -/
theorem occupied_sizes : ∀ (bs : List (List Address)) (i : Nat),
    ((binEntries bs i).filter (fun p => !p.2.isEmpty)).map Prod.fst =
      ((enumSizes bs i).filter (fun p => p.2 != 0)).map Prod.fst
  | [], _ => rfl
  | b :: bs, i => by
    cases b with
    | nil =>
      simp [binEntries, enumSizes, List.filter_cons, occupied_sizes bs (i + 1)]
    | cons x xs =>
      simp [binEntries, enumSizes, List.filter_cons, occupied_sizes bs (i + 1)]

/-- The shallowest-empty computation depends only on the bin sizes. -/
theorem shallowestEmpty_congr (s t : PSlice)
    (h : s.bins.map List.length = t.bins.map List.length) :
    s.ShallowestEmpty = t.ShallowestEmpty := by
  have hocc : s.occupied = t.occupied := by
    unfold PSlice.occupied
    rw [occupied_sizes, occupied_sizes, enumSizes_congr s.bins t.bins 0 h]
  unfold PSlice.ShallowestEmpty PSlice.deepestOccupied
  rw [hocc]
  cases t.occupied.getLast? with
  | none => rfl
  | some d =>
    simp only
    congr 1
    funext i
    unfold PSlice.binSize
    rw [getD_length, getD_length, h]

/-- The recomputed depth depends only on the bin sizes of the connected
set, not on which addresses occupy the bins. -/
theorem recalcDepth_congr (s t : PSlice)
    (h : s.bins.map List.length = t.bins.map List.length) :
    recalcDepth s = recalcDepth t := by
  simp only [recalcDepth]
  rw [show s.Length = t.Length from by unfold PSlice.Length; rw [h]]
  rw [candidate_desc s, candidate_desc t, enumSizes_congr s.bins t.bins 0 h,
    shallowestEmpty_congr s t h]

/-- Reading back an updated position of a list. -/
theorem getD_set_self {α : Type} : ∀ (l : List α) (i : Nat) (x d : α),
    i < l.length → (l.set i x).getD i d = x
  | _ :: _, 0, _, _, _ => rfl
  | _ :: l, i + 1, x, d, h => getD_set_self l i x d (Nat.lt_of_succ_lt_succ h)
  | [], _, _, _, h => absurd h (by simp)

/-- Writing back the value already stored at a position is the identity. -/
theorem set_getD_self {α : Type} : ∀ (l : List α) (i : Nat) (d : α),
    l.set i (l.getD i d) = l
  | [], _, _ => rfl
  | _ :: _, 0, _ => rfl
  | a :: l, i + 1, d => congrArg (List.cons a) (set_getD_self l i d)

/-- Removing a present address from its bin and appending it back leaves
every bin size unchanged. -/
theorem remove_add_sizes (s : PSlice) (p : Address) (po : Nat)
    (hpo : po < s.bins.length) (hmem : p ∈ s.bins.getD po []) :
    ((s.Remove p po).Add p po).bins.map List.length = s.bins.map List.length := by
  simp only [PSlice.Remove, PSlice.Add]
  rw [getD_set_self s.bins po _ [] hpo, List.set_set, List.map_set]
  have hlen : ((s.bins.getD po []).erase p ++ [p]).length =
      (s.bins.getD po []).length := by
    have hpos := List.length_pos_of_mem hmem
    rw [List.length_append, List.length_erase_of_mem hmem]
    simp only [List.length_cons, List.length_nil]
    omega
  rw [hlen, getD_length]
  exact set_getD_self _ po 0

/-- The source `binSaturated` returns false on every input: its peer-count
check sits behind an unconditional return. -/
theorem binSaturated_false (po depth : Nat) : binSaturated po depth = false := by
  unfold binSaturated
  split <;> rfl

/-- C1 counterexample: on the connected set with one peer each at bins 0,
1, 2 and two peers at bin 8 (more than 2 peers), `recalcDepth` does not
return the value of the claimed formula whose running count is accumulated
over bins in increasing order. -/
theorem recalcDepth_ascending_formula_refuted :
    nnLowWatermark < conn5.Length ∧ recalcDepth conn5 ≠ specDepthAsc conn5 := by
  decide

/-- C1 (amended): for every connected set with more than 2 peers,
`recalcDepth` returns the bin `candidate` at which a running peer count,
accumulated while scanning connected-peer bins in decreasing order (deepest
first), first reaches `W = 2`, whenever no empty bin exists shallower than
or at `candidate`; otherwise it returns `shallowestEmpty`. -/
theorem recalcDepth_descending_characterization (s : PSlice)
    (h : nnLowWatermark < s.Length) :
    recalcDepth s = specDepthDesc s := by
  simp only [recalcDepth, specDepthDesc]
  rw [if_neg (Nat.not_le.mpr h), candidate_desc]

/-- Witness for the C1 amended theorem at the 5-peer configuration. -/
theorem recalcDepth_descending_characterization_witness :
    nnLowWatermark < conn5.Length ∧ recalcDepth conn5 = specDepthDesc conn5 :=
  ⟨by decide, recalcDepth_descending_characterization conn5 (by decide)⟩

/-- C2 counterexample: on the 4-peer configuration (one peer at bin 0, one
at bin 1, two at bin 8) the depth computed by `recalcDepth` with an
`EachBin` traversal in ascending bin order does not equal 2. -/
theorem golden_depth_two_ascending_refuted :
    conn248.Length = 4 ∧ recalcDepthEachBinAsc conn248 ≠ 2 := by
  decide

/-- C2 (amended): on the same configuration, `recalcDepth` with its
`EachBin` traversal in descending bin order computes depth 2. -/
theorem golden_depth_two_descending :
    conn248.Length = 4 ∧ recalcDepth conn248 = 2 := by
  decide

/-- C3: in every reachable state of the connectivity manager, if the
connected-peer count is at most the low watermark `W = 2` then the stored
depth scalar returned by `NeighborhoodDepth` is 0; all mutating operations
(successful `AddPeer`, dial success, `Disconnected`, `Remove`) preserve
this. -/
theorem reachable_depth_zero_at_low_watermark (k : Kad)
    (hr : Kad.Reachable k) :
    k.connectedPeers.Length ≤ nnLowWatermark → k.NeighborhoodDepth = 0 := by
  induction hr with
  | init base => intro _; rfl
  | addPeer k0 addr k' _ hok ih =>
    intro hc
    obtain ⟨hconn, hdepth⟩ := addPeer_ok_inv k0 addr k' hok
    show k'.depth = 0
    rw [hdepth]
    exact ih (by rw [← hconn]; exact hc)
  | disconnected k0 addr _ _ =>
    intro hc
    simp only [Kad.Disconnected] at hc ⊢
    exact recalcDepth_of_le _ hc
  | remove k0 addr _ _ =>
    intro hc
    simp only [Kad.Remove] at hc ⊢
    exact recalcDepth_of_le _ hc
  | dial k0 peer po _ _ _ =>
    intro hc
    simp only [Kad.connectPeer] at hc ⊢
    exact recalcDepth_of_le _ hc

/-- Witness for C3 at the freshly created manager. -/
theorem reachable_depth_zero_at_low_watermark_witness :
    (Kad.new base0).connectedPeers.Length ≤ nnLowWatermark ∧
    (Kad.new base0).NeighborhoodDepth = 0 :=
  ⟨by decide, reachable_depth_zero_at_low_watermark (Kad.new base0)
    (Kad.Reachable.init base0) (by decide)⟩

/-- C4 (code bug): `binSaturated` returns `false` for every pair of bin and
depth — including bins shallower than the depth that hold at least 2
connected peers, which the specification says must be saturated; the
peer-count check in the source is unreachable dead code. -/
theorem binSaturated_never_true (po depth : Nat) :
    binSaturated po depth = false :=
  binSaturated_false po depth

/-- C5 (code bug): when resolving a candidate's transport address fails
during a reconciliation pass, the pass panics — terminating the process —
instead of skipping the peer and continuing. -/
theorem manage_resolve_failure_panics (μ : Type) (resolve : Address → Option μ)
    (connect : μ → Option Address) (k : Kad) (p : Address) (po : Nat)
    (addrs : List Address) (rest : List (Nat × List Address))
    (hconn : k.connectedPeers.Exists p = false) (hres : resolve p = none) :
    manageBins μ resolve connect k ((po, p :: addrs) :: rest) =
      GoResult.panicked "err" := by
  simp [manageBins, manageBinLoop, hconn, hres, binSaturated_false]

/-- Resolver that fails on every address, for the C5 witness. -/
def resolveNone : Address → Option Nat := fun _ => none

/-- Connector that fails on every dial. -/
def connectNone : Nat → Option Address := fun _ => none

/-- Witness for C5: a single unconnected known candidate whose resolution
fails makes the pass panic. -/
theorem manage_resolve_failure_panics_witness :
    (Kad.new base0).connectedPeers.Exists pa0 = false ∧
    manageBins Nat resolveNone connectNone (Kad.new base0) [(0, [pa0])] =
      GoResult.panicked "err" :=
  ⟨by decide, manage_resolve_failure_panics Nat resolveNone connectNone
    (Kad.new base0) pa0 0 [] [] (by decide) rfl⟩

/-- Manager state whose known set already contains `pa0`, for C6. -/
def kadKnown0 : Kad :=
  { Kad.new base0 with knownPeers := (PSlice.new maxBins).Add pa0 0 }

/-- C6 (code bug): `AddPeer` of an address already present in the known set
panics instead of returning a distinct error value. -/
theorem addPeer_duplicate_panics :
    kadKnown0.AddPeer pa0 = GoResult.panicked "peer already connected" := by
  decide

/-- Resolver that succeeds on every address, for the C7 scenarios. -/
def resolveAll : Address → Option Nat := fun _ => some 0

/-- Connector that succeeds on every dial. -/
def connectAll : Nat → Option Address := fun _ => some []

/-- Manager state with two unconnected known peers at bins 0 and 1. -/
def kadTwoKnown : Kad :=
  { Kad.new base0 with knownPeers := ((PSlice.new maxBins).Add pa0 0).Add pa1 1 }

/-- Connected set of a normally returning pass, if it returned normally. -/
def okConnected : GoResult Kad → Option PSlice
  | GoResult.ok k => some k.connectedPeers
  | GoResult.panicked _ => none

/-- C7 counterexample: with two eligible, resolvable, dialable known
candidates, the pass connects the first and returns without visiting the
second — it does not continue scanning until the traversal is exhausted. -/
theorem managePass_stops_early_example :
    (okConnected (Kad.managePass Nat resolveAll connectAll kadTwoKnown)).map
      (fun c => (c.Exists pa0, c.Exists pa1)) = some (true, false) := by
  decide

/-- C7 (amended): after a successful dial the pass records the peer in the
connected set at its bin, recomputes depth, posts a wake-up, and stops the
traversal immediately; the remaining candidates are left to the next pass
triggered by the posted wake-up. -/
theorem managePass_stops_after_dial_success (μ : Type)
    (resolve : Address → Option μ) (connect : μ → Option Address) (k : Kad)
    (p : Address) (po : Nat) (addrs : List Address)
    (rest : List (Nat × List Address)) (ma : μ) (a : Address)
    (hconn : k.connectedPeers.Exists p = false)
    (hres : resolve p = some ma) (hdial : connect ma = some a) :
    manageBins μ resolve connect k ((po, p :: addrs) :: rest) =
      GoResult.ok (k.connectPeer p po) := by
  simp [manageBins, manageBinLoop, hconn, hres, hdial, binSaturated_false]

/-- Witness for the C7 amended theorem: the pass over two candidates stops
after connecting the first. -/
theorem managePass_stops_after_dial_success_witness :
    (Kad.new base0).connectedPeers.Exists pa0 = false ∧
    manageBins Nat resolveAll connectAll (Kad.new base0)
        [(0, [pa0]), (1, [pa1])] =
      GoResult.ok ((Kad.new base0).connectPeer pa0 0) :=
  ⟨by decide, managePass_stops_after_dial_success Nat resolveAll connectAll
    (Kad.new base0) pa0 0 [] [(1, [pa1])] 0 [] (by decide) rfl rfl⟩

/-- Manager state whose known and connected sets both hold the four peers
of the golden configuration, with depth recomputed, for C8. -/
def kadC8 : Kad :=
  { base := base0
    connectedPeers := conn248
    knownPeers := conn248
    depth := recalcDepth conn248
    wake := false }

/-- C8 counterexample: for the connected peer `pa0`, `Remove` followed by
`AddPeer` of the same address does not succeed — `AddPeer` panics, because
the address is still present in the known set. -/
theorem remove_readd_panics_example :
    kadC8.connectedPeers.Exists pa0 = true ∧
    (kadC8.Remove pa0).AddPeer pa0 =
      GoResult.panicked "peer already connected" := by
  decide

/-- C8 (amended): re-`AddPeer` after `Remove` of a connected peer fails
with the duplicate-registration panic, since the address remains in the
known set; the pre-removal depth is instead restored when the
wake-up-triggered reconciliation re-records the still-known peer in the
connected set at its proximity bin. -/
theorem remove_reconnect_restores_depth (k : Kad) (p : Address)
    (hknown : k.knownPeers.Exists p = true)
    (hmem : p ∈ k.connectedPeers.bins.getD (Proximity k.base p) [])
    (hpo : Proximity k.base p < k.connectedPeers.bins.length)
    (hdepth : k.depth = recalcDepth k.connectedPeers) :
    (k.Remove p).AddPeer p = GoResult.panicked "peer already connected" ∧
    ((k.Remove p).connectPeer p (Proximity k.base p)).depth = k.depth := by
  constructor
  · have hkn : (k.Remove p).knownPeers = k.knownPeers := rfl
    unfold Kad.AddPeer
    rw [hkn, hknown]
    simp
  · show recalcDepth
      (((k.Remove p).connectedPeers).Add p (Proximity k.base p)) = k.depth
    have hconn : (k.Remove p).connectedPeers =
        k.connectedPeers.Remove p (Proximity k.base p) := rfl
    rw [hconn, hdepth]
    exact recalcDepth_congr _ _
      (remove_add_sizes k.connectedPeers p (Proximity k.base p) hpo hmem)

/-- Witness for the C8 amended theorem at the golden configuration. -/
theorem remove_reconnect_restores_depth_witness :
    kadC8.knownPeers.Exists pa0 = true ∧
    pa0 ∈ kadC8.connectedPeers.bins.getD (Proximity kadC8.base pa0) [] ∧
    Proximity kadC8.base pa0 < kadC8.connectedPeers.bins.length ∧
    ((kadC8.Remove pa0).AddPeer pa0 =
        GoResult.panicked "peer already connected" ∧
      ((kadC8.Remove pa0).connectPeer pa0 (Proximity kadC8.base pa0)).depth =
        kadC8.depth) :=
  ⟨by decide, by decide, by decide,
    remove_reconnect_restores_depth kadC8 pa0 (by decide) (by decide)
      (by decide) rfl⟩

/-- C9 (code bug): `ClosestPeer` panics with "not implemented" on every
input, instead of returning the closest connected peer or a NotFound
error. -/
theorem closestPeer_unimplemented_panics (k : Kad) (addr : Address) :
    k.ClosestPeer addr = GoResult.panicked "not implemented" := rfl

/-- C10: `AddPeer` of an address in neither set succeeds, leaving the
connected set and the depth scalar exactly as they were; it only inserts
the address into the known set at its proximity bin and posts a wake-up. -/
theorem addPeer_frame_connected_depth (k : Kad) (addr : Address)
    (h1 : k.connectedPeers.Exists addr = false)
    (h2 : k.knownPeers.Exists addr = false) :
    k.AddPeer addr = GoResult.ok
      { k with knownPeers := k.knownPeers.Add addr (Proximity k.base addr)
               wake := true } := by
  unfold Kad.AddPeer
  rw [h1, h2]
  simp

/-- Witness for C10 at the freshly created manager and peer `pa0`. -/
theorem addPeer_frame_connected_depth_witness :
    (Kad.new base0).connectedPeers.Exists pa0 = false ∧
    (Kad.new base0).knownPeers.Exists pa0 = false ∧
    (Kad.new base0).AddPeer pa0 = GoResult.ok
      { Kad.new base0 with
        knownPeers := (Kad.new base0).knownPeers.Add pa0 (Proximity base0 pa0)
        wake := true } :=
  ⟨by decide, by decide,
    addPeer_frame_connected_depth (Kad.new base0) pa0 (by decide) (by decide)⟩
